import Mathlib

/-!
# ecs-cicd: change detection and build orchestration

A shallow embedding of `main.go` and `internal/ci/ci.go`.

Go strings are modelled as lists of runes (`List Char`).  External commands
(`git`, `docker`, `aws`) and the clock are not executed: each function takes an
oracle record holding the outcome of every command it may run, and threads a
`World` that holds the part of the file system the program reads and writes
(the working directory of the process, the directories and the `.last_commit`
marker files) together with the log of commands and prints issued so far.
-/

namespace EcsCicd

/-- A Go `string`, as its sequence of runes; strings are taken to be valid UTF-8, on
which the byte-level and the rune-level reading of the functions below agree. -/
abbrev GoString := List Char

/-! ## Go standard library functions used by the program -/

/-- Go `unicode.IsSpace`: the Latin-1 spaces `\t \n \v \f \r`, space, U+0085, U+00A0,
and the other code points with the White_Space property. -/
def isSpace (c : Char) : Bool :=
  let n := c.toNat
  (9 ≤ n && n ≤ 13) || n == 0x20 || n == 0x85 || n == 0xA0 || n == 0x1680 ||
  (0x2000 ≤ n && n ≤ 0x200A) || n == 0x2028 || n == 0x2029 || n == 0x202F ||
  n == 0x205F || n == 0x3000

/-- Go `strings.TrimSpace`: the string without its leading and trailing white space. -/
def TrimSpace (s : GoString) : GoString :=
  ((s.dropWhile isSpace).reverse.dropWhile isSpace).reverse

/-- The loop of Go `strings.FieldsFunc(s, unicode.IsSpace)`: `cur` is `none` while the
scan is between fields (Go: `start < 0`) and `some f` while it is inside the field whose
runes so far are `f`. -/
def fieldsLoop : GoString → Option GoString → List GoString
  | [], none => []
  | [], some f => [f]
  | c :: cs, none => if isSpace c then fieldsLoop cs none else fieldsLoop cs (some [c])
  | c :: cs, some f =>
    if isSpace c then f :: fieldsLoop cs none else fieldsLoop cs (some (f ++ [c]))

/-- Go `strings.Fields`: the maximal runs of non-space runes of `s`, in order. -/
def Fields (s : GoString) : List GoString := fieldsLoop s none

/-- Go `strings.Split(s, sep)` for a one-rune separator: the pieces of `s` between
consecutive occurrences of `sep`; always at least one piece. -/
def Split (sep : Char) : GoString → List GoString
  | [] => [[]]
  | c :: cs =>
    if c = sep then [] :: Split sep cs
    else match Split sep cs with
      | [] => [[c]]
      | p :: ps => (c :: p) :: ps

/-- Go `strings.TrimSuffix`: `s` without the trailing `suffix` when it ends with it,
`s` itself otherwise. -/
def TrimSuffix (s suffix : GoString) : GoString :=
  if suffix.isSuffixOf s then s.take (s.length - suffix.length) else s

/-- A broken-down wall-clock reading, the fields `Time.Format` reads from the value
returned by `time.Now()`. -/
structure Time where
  year : Int
  month : Nat
  day : Nat
  hour : Nat
  minute : Nat
  second : Nat
  nanosecond : Nat
  deriving DecidableEq, Repr

/-- The fields of a wall-clock reading are in their calendar ranges. -/
def Time.valid (t : Time) : Prop :=
  1 ≤ t.month ∧ t.month ≤ 12 ∧ 1 ≤ t.day ∧ t.day ≤ 31 ∧
  t.hour < 24 ∧ t.minute < 60 ∧ t.second < 60

instance (t : Time) : Decidable t.valid := by
  unfold Time.valid; infer_instance

/-- Two readings agree on every field down to the second. -/
def Time.sameSecond (a b : Time) : Prop :=
  a.year = b.year ∧ a.month = b.month ∧ a.day = b.day ∧
  a.hour = b.hour ∧ a.minute = b.minute ∧ a.second = b.second

instance (a b : Time) : Decidable (a.sameSecond b) := by
  unfold Time.sameSecond; infer_instance

/-- Decimal digits of `u`, most significant first, produced by `fuel` divisions at most. -/
def decimalDigits : Nat → Nat → List Char
  | 0, _ => []
  | fuel + 1, u =>
    if u < 10 then [Char.ofNat (48 + u)]
    else decimalDigits fuel (u / 10) ++ [Char.ofNat (48 + u % 10)]

/-- Go `time.appendInt`: the decimal form of `x`, a `-` first when negative, the digits
padded with leading zeros to `width`. -/
def appendInt (x : Int) (width : Nat) : GoString :=
  let u := x.natAbs
  let ds := decimalDigits (u + 1) u
  (if x < 0 then ['-'] else []) ++ List.replicate (width - ds.length) '0' ++ ds

/-- Go `t.Format("2006-01-02t150405")`.  The layout splits into the chunks `2006`
(year, width 4), `-`, `01` (month, width 2), `-`, `02` (day, width 2), the literal `t`,
`15` (hour), `04` (minute) and `05` (second), each of width 2. -/
def Format (t : Time) : GoString :=
  appendInt t.year 4 ++ ['-'] ++ appendInt t.month 2 ++ ['-'] ++ appendInt t.day 2 ++
  ['t'] ++ appendInt t.hour 2 ++ appendInt t.minute 2 ++ appendInt t.second 2

/-! ## Errors, events and the world -/

/-- The error values built by the program, one constructor for each `fmt.Errorf` site
that is returned to a caller. -/
inductive Error
  /-- Message `failed to get HEAD hash: %w` -/
  | headHash
  /-- Message `failed to get remote hash: %w` -/
  | remoteHash
  /-- Message `no remote hash found for %s` -/
  | noRemoteHash (branch : GoString)
  /-- Message `git clone failed: %w` -/
  | gitClone
  /-- Message `git fetch failed: %w` -/
  | gitFetch
  /-- Message `failed to write state file: %w` -/
  | writeState
  /-- Message `error changing directory: %w` -/
  | chdir
  /-- Message `git pull failed: %w` -/
  | gitPull
  /-- Message `docker build failed: %w` -/
  | dockerBuild
  /-- Message `unable to get HEAD hash: %w` -/
  | unableHeadHash (inner : Error)
  /-- Message `failed to start docker login: %w` -/
  | loginStart
  /-- Message `failed to get ECR login password: %w` -/
  | loginPassword
  /-- Message `docker login failed: %w` -/
  | login
  /-- Message `docker push failed: %w` -/
  | push
  deriving DecidableEq, Repr

/-- How a call of Go `os.WriteFile(name, data, perm)` ends.  The call opens the file with
`O_WRONLY|O_CREATE|O_TRUNC`, writes `data` and closes it. -/
inductive WriteResult
  /-- No error: the file holds exactly `data`. -/
  | ok
  /-- The open failed: the file is as it was. -/
  | openFailed
  /-- The open truncated the file and a later step failed: the file holds the first
  `written` runes of `data`. -/
  | failed (written : Nat)
  deriving DecidableEq, Repr

/-- What the program does to the outside: the commands it runs, with the outcome the
oracle gave, the files it reads and writes, and the text it prints.  `gitCheckout` is
the one effect of a `git clone` or `git pull` on a file the program reads: git leaves
the marker file of the working tree with `content` (`none`: no such file), which
happens when the upstream repository tracks a file of that name. -/
inductive Event
  | mkdir (directory : GoString) (ok : Bool)
  | chdir (directory : GoString) (ok : Bool)
  | gitCheckout (file : GoString) (content : Option GoString)
  | gitClone (branch authURL directory : GoString) (ok : Bool)
  | gitRevParseHead (directory : GoString) (out : Option GoString)
  | gitLsRemote (project branch : GoString) (out : Option GoString)
  | gitFetch (directory branch : GoString) (ok : Bool)
  | readFile (file : GoString) (data : Option GoString)
  | writeFile (file data : GoString) (res : WriteResult)
  | gitPull (ok : Bool)
  | dockerBuild (versionTag latestTag : GoString) (ok : Bool)
  | dockerLogin (ecr : GoString) (ok : Bool)
  | awsGetLoginPassword (region : GoString) (ok : Bool)
  | dockerLoginWait (ok : Bool)
  | dockerPush (versionTag : GoString) (ok : Bool)
  | print (text : GoString)
  | printErr (text : GoString) (err : Error)
  | fatal (text : GoString)
  deriving DecidableEq, Repr

/-- The state the program runs against.  Files and directories are named by their path
from the directory the process was started in, joined as written (no `.`, `..` or
leading `/` is interpreted; the program builds its paths from one segment of
`PROJECT`).  `cwd`: the working directory of the process (`[]` is the starting
directory).  `dirs`: the directories that exist.  `files`: the content of the marker
files, the only files the program reads, `none` for one that cannot be read.  `log`:
the events so far, oldest first.  The `file` of a `readFile`, `writeFile` or
`gitCheckout` event is such a full name; the other events carry the arguments as the
program passed them. -/
structure World where
  cwd : GoString
  dirs : GoString → Bool
  files : GoString → Option GoString
  log : List Event

/-- Append an event to the log. -/
def World.emit (w : World) (e : Event) : World :=
  { w with log := w.log ++ [e] }

/-- The name of the relative path `p` seen from the directory `cwd`. -/
def joinPath (cwd p : GoString) : GoString :=
  if cwd = [] then p else cwd ++ '/' :: p

/-- The full name of the relative path `p`: `p` under the working directory. -/
def World.path (w : World) (p : GoString) : GoString :=
  joinPath w.cwd p

/-- Leave `file` with `content`. -/
def World.setFile (w : World) (file : GoString) (content : Option GoString) : World :=
  { w with files := fun g => if g = file then content else w.files g }

/-- Record that `directory` exists. -/
def World.addDir (w : World) (directory : GoString) : World :=
  { w with dirs := fun g => if g = directory then true else w.dirs g }

/-- Git leaves the tracked marker `file` of a working tree with `content`. -/
def World.gitCheckout (w : World) (file : GoString) (content : Option GoString) : World :=
  (w.setFile file content).emit (Event.gitCheckout file content)

/-- Go `os.Mkdir`: it fails when the directory is there already, and may fail
otherwise (`ok = false`). -/
def World.Mkdir (w : World) (directory : GoString) (ok : Bool) : Bool × World :=
  let done := !w.dirs (w.path directory) && ok
  let w1 := w.emit (Event.mkdir directory done)
  (done, if done then w1.addDir (w.path directory) else w1)

/-- Go `os.Chdir`: it fails when the directory is absent, and may fail otherwise
(`ok = false`); on success the working directory of the process is `directory` from
then on. -/
def World.Chdir (w : World) (directory : GoString) (ok : Bool) : Bool × World :=
  let done := w.dirs (w.path directory) && ok
  let w1 := w.emit (Event.chdir directory done)
  (done, if done then { w1 with cwd := w.path directory } else w1)

/-- Go `os.WriteFile`, with the outcome `res`. -/
def World.WriteFile (w : World) (path data : GoString) (res : WriteResult) : World :=
  let w1 := w.emit (Event.writeFile (w.path path) data res)
  match res with
  | WriteResult.ok => w1.setFile (w.path path) (some data)
  | WriteResult.openFailed => w1
  | WriteResult.failed written => w1.setFile (w.path path) (some (data.take written))

/-- Lines 125-128 of `main.go`: `storedHash` is the trimmed content of the state file,
and stays the empty string when `os.ReadFile` fails. -/
def readStoredHash (w : World) (stateFile : GoString) : GoString × World :=
  let w1 := w.emit (Event.readFile (w.path stateFile) (w.files (w.path stateFile)))
  match w.files (w.path stateFile) with
  | some data => (TrimSpace data, w1)
  | none => ([], w1)

/-! ## internal/ci/ci.go -/

/-- Function `GetHeadHash`: `out` is the result of `git -C directory rev-parse HEAD`,
`none` when the command fails. -/
def GetHeadHash (directory : GoString) (out : Option GoString) (w : World) :
    (GoString × Option Error) × World :=
  let w1 := w.emit (Event.gitRevParseHead directory out)
  match out with
  | none => (([], some Error.headHash), w1)
  | some o => ((TrimSpace o, none), w1)

/-- Function `GetRemoteHash`: `out` is the result of `git ls-remote project branch`,
`none` when the command fails. -/
def GetRemoteHash (project branch : GoString) (out : Option GoString) (w : World) :
    (GoString × Option Error) × World :=
  let w1 := w.emit (Event.gitLsRemote project branch out)
  match out with
  | none => (([], some Error.remoteHash), w1)
  | some o =>
    match Fields o with
    | [] => (([], some (Error.noRemoteHash branch)), w1)
    | p :: _ => ((p, none), w1)

/-- Outcomes of the commands `DockerBuild` may run: `os.Chdir`, `git pull`, the clock,
`docker build`, `git rev-parse HEAD` and the write of the marker.  `pullMarker` is what
`git pull` does to the `.last_commit` of the working tree, whether it ends well or
not: `none` when it leaves the file alone, `some c` when it leaves it with content `c`
(the upstream tracks a file of that name). -/
structure BuildOracle where
  chdir : Bool
  pull : Bool
  pullMarker : Option (Option GoString)
  now : Time
  build : Bool
  head : Option GoString
  write : WriteResult
  deriving DecidableEq, Repr

/-- Function `DockerBuild`.  The `os.Chdir(directory)` it starts with lasts: the
process stays in the working copy, where `git pull` runs and `.last_commit` is
written.  `git pull` may check out a `.last_commit` that the upstream tracks;
`docker build` and `git rev-parse` leave the working tree alone. -/
def DockerBuild (directory ecr : GoString) (o : BuildOracle) (w : World) :
    (GoString × Option Error) × World :=
  let w1 := (w.Chdir directory o.chdir).2
  if !(w.Chdir directory o.chdir).1 then (([], some Error.chdir), w1)
  else
    let w1p := match o.pullMarker with
      | some c => w1.gitCheckout (w1.path ".last_commit".toList) c
      | none => w1
    let w2 := w1p.emit (Event.gitPull o.pull)
    if !o.pull then (([], some Error.gitPull), w2)
    else
      let timestamp := Format o.now
      let versionTag := ecr ++ ":".toList ++ timestamp
      let latestTag := ecr ++ ":latest".toList
      let w3 := w2.emit (Event.dockerBuild versionTag latestTag o.build)
      if !o.build then (([], some Error.dockerBuild), w3)
      else
        match GetHeadHash ".".toList o.head w3 with
        | ((_, some err), w4) => (([], some (Error.unableHeadHash err)), w4)
        | ((newHash, none), w4) =>
          let w5 := w4.WriteFile ".last_commit".toList newHash o.write
          if o.write ≠ WriteResult.ok then (([], some Error.writeState), w5)
          else ((versionTag, none), w5)

/-- Outcomes of the commands `PushToEcr` may run: starting `docker login`, running
`aws ecr get-login-password`, waiting for `docker login`, and `docker push`. -/
structure PushOracle where
  loginStart : Bool
  getPw : Bool
  loginWait : Bool
  push : Bool
  deriving DecidableEq, Repr

/-- Function `PushToEcr`: log in to the registry, then push `versionTag`; the first
command that fails ends it with the error of that stage. -/
def PushToEcr (ecr versionTag region : GoString) (o : PushOracle) (w : World) :
    Option Error × World :=
  let w1 := w.emit (Event.dockerLogin ecr o.loginStart)
  if !o.loginStart then (some Error.loginStart, w1)
  else
    let w2 := w1.emit (Event.awsGetLoginPassword region o.getPw)
    if !o.getPw then (some Error.loginPassword, w2)
    else
      let w3 := w2.emit (Event.dockerLoginWait o.loginWait)
      if !o.loginWait then (some Error.login, w3)
      else
        let w4 := w3.emit (Event.dockerPush versionTag o.push)
        if !o.push then (some Error.push, w4)
        else (none, w4)

/-! ## main.go -/

/-- Function `getDirectory`: `none` is the run-time panic of indexing `split_proj[1]`
out of range; otherwise the pair `(dir, err)` that is returned. -/
def getDirectory (project : GoString) : Option (GoString × Option Error) :=
  let split_proj := Split '/' project
  match split_proj[1]? with
  | none => none
  | some s => some (TrimSuffix s ".git".toList, none)

/-- Outcomes of the commands `checkOrClone` may run: `git clone`,
`git rev-parse HEAD`, the write of the marker, `git fetch` and `git ls-remote`.
`cloneMarker` is the `.last_commit` of the tree a successful clone checks out: `none`
when the upstream tracks no file of that name. -/
structure SyncOracle where
  clone : Bool
  cloneMarker : Option GoString
  head : Option GoString
  write : WriteResult
  fetch : Bool
  lsRemote : Option GoString
  deriving DecidableEq, Repr

/-- Function `checkOrClone`.  `os.Stat(directory)` answers `ErrNotExist` exactly when
the directory is absent; a `git clone` that succeeds creates it with the tree checked
out, one that fails leaves none behind; `git fetch` and `git ls-remote` leave the
working tree alone. -/
def checkOrClone (directory authURL branch : GoString) (o : SyncOracle) (w : World) :
    (Bool × Option Error) × World :=
  let stateFile := directory ++ "/.last_commit".toList
  let buildRequired := false
  if !w.dirs (w.path directory) then
    if !o.clone then
      ((buildRequired, some Error.gitClone),
        w.emit (Event.gitClone branch authURL directory false))
    else
      let w1 := (((w.addDir (w.path directory)).gitCheckout (w.path stateFile)
        o.cloneMarker).emit (Event.gitClone branch authURL directory true))
      match GetHeadHash directory o.head w1 with
      | ((_, some err), w2) => ((buildRequired, some err), w2)
      | ((commitHash, none), w2) =>
        let w3 := w2.WriteFile stateFile commitHash o.write
        if o.write ≠ WriteResult.ok then ((buildRequired, some Error.writeState), w3)
        else ((true, none), w3)
  else
    let w1 := w.emit (Event.gitFetch directory branch o.fetch)
    if !o.fetch then ((buildRequired, some Error.gitFetch), w1)
    else
      match GetRemoteHash authURL branch o.lsRemote w1 with
      | ((_, some err), w2) => ((buildRequired, some err), w2)
      | ((remoteHash, none), w2) =>
        let (storedHash, w3) := readStoredHash w2 stateFile
        if remoteHash = storedHash then ((buildRequired, none), w3)
        else ((true, none), w3)

/-- The environment variables `main` reads. -/
structure Environ where
  project : GoString
  branch : GoString
  token : GoString
  ecr : GoString
  region : GoString
  deriving DecidableEq, Repr

/-- How a run of `main` ends: `ok` is a return from `main` (exit status 0), `fatal` is
`log.Fatal` (exit status 1), `panic` is a run-time panic (exit status 2). -/
inductive Exit
  | ok
  | fatal
  | panic
  deriving DecidableEq, Repr

/-- The check of line 22 of `main.go`: `true` when `main` goes on, `false` when it
stops in `log.Fatal`. -/
def envValid (e : Environ) : Bool :=
  !(e.project == [] || e.token == [] || e.ecr == [] || e.region == [])

/-- The oracles of one run of `main`: `os.Mkdir("repos")`, `os.Chdir("repos")` and the
three stages. -/
structure MainOracle where
  mkdir : Bool
  chdir : Bool
  sync : SyncOracle
  build : BuildOracle
  push : PushOracle
  deriving DecidableEq, Repr

/-- Function `main`.  Each `fmt.Errorf` whose value is dropped is a no-op, as is the
dropped error of `os.Chdir("repos")`; the run goes on to the next statement. -/
def main (e : Environ) (o : MainOracle) (w : World) : Exit × World :=
  if !envValid e then
    (Exit.fatal, w.emit (Event.fatal
      "Missing required environment variables: PROJECT, BRANCH, PAT_TOKEN, ECR, AWS_DEFAULT_REGION".toList))
  else
    let branch := if e.branch = [] then "main".toList else e.branch
    let authURL := "https://".toList ++ e.token ++ "@github.com/".toList ++ e.project
    let wm := (w.Mkdir "repos".toList o.mkdir).2
    let w0 := (wm.Chdir "repos".toList o.chdir).2
    match getDirectory e.project with
    | none => (Exit.panic, w0)
    | some (ci_dir, _) =>
      let ((buildRequired, _), w1) := checkOrClone ci_dir authURL branch o.sync w0
      if !buildRequired then
        (Exit.ok, w1.emit (Event.print "No build required".toList))
      else
        let w2 := w1.emit (Event.print "Initiating new image build: ".toList)
        let ((versionTag, err), w3) := DockerBuild ci_dir e.ecr o.build w2
        let w4 := match err with
          | some err => w3.emit (Event.printErr "CI process failed: ".toList err)
          | none => w3.emit (Event.print ("build result: ".toList ++ versionTag ++ ['\n']))
        match PushToEcr e.ecr versionTag e.region o.push w4 with
        | (some _, w5) => (Exit.ok, w5)
        | (none, w5) => (Exit.ok, w5.emit (Event.print "Successfully pushed to ECR\n".toList))

/-! ## Specification-side definitions -/

/-- The first whitespace-delimited field of `s`, in the words of the specification:
skip the leading white space, then take runes up to the next white space. -/
def firstField (s : GoString) : GoString :=
  (s.dropWhile isSpace).takeWhile (fun c => !isSpace c)

/-- The segment of `s` between its first and its second `/` (up to the end when there
is no second one). -/
def secondSegment (s : GoString) : GoString :=
  ((s.dropWhile (fun c => c != '/')).drop 1).takeWhile (fun c => c != '/')

/-- The world before the first run: the process is in its starting directory, there
is no directory, no file, and nothing is logged. -/
def initial : World := ⟨[], fun _ => false, fun _ => none, []⟩

/-- The full name of `.last_commit` as `DockerBuild` names it, after
`os.Chdir(directory)`. -/
def World.markerAfterChdir (w : World) (directory : GoString) : GoString :=
  joinPath (w.path directory) ".last_commit".toList

/-- A world in which the directory `repos` and the working copy `repo` exist, the
working copy both under `repos`, where `main` looks for it, and under the starting
directory, where a direct call of `checkOrClone` or `DockerBuild` looks for it, with a
marker that holds `marker`; the process is in its starting directory. -/
def existingCopy (marker : GoString) : World :=
  ⟨[], fun d => d == "repos".toList || d == "repos/repo".toList || d == "repo".toList,
    fun f => if f = "repos/repo/.last_commit".toList ∨ f = "repo/.last_commit".toList
      then some marker else none, []⟩

/-- One step of the system: a run of `checkOrClone` or a run of `DockerBuild`, on any
arguments and with any outcome of the commands they run, or the start of a process in
some working directory. -/
inductive Step : World → World → Prop
  | sync (directory authURL branch : GoString) (o : SyncOracle) (w : World) :
    Step w (checkOrClone directory authURL branch o w).2
  | build (directory ecr : GoString) (o : BuildOracle) (w : World) :
    Step w (DockerBuild directory ecr o w).2
  | start (cwd : GoString) (w : World) :
    Step w { w with cwd := cwd }

/-- The worlds reached from `initial` by finitely many steps. -/
inductive Reachable : World → Prop
  | init : Reachable initial
  | step {w w' : World} : Reachable w → Step w w' → Reachable w'

/-- The event is a write by the program that succeeded. -/
def successfulWrite : Event → Bool
  | Event.writeFile _ _ WriteResult.ok => true
  | _ => false

/-- What the event does to the file `f`: `none` when it leaves it alone, `some c` when
it leaves it with content `c`. -/
def touches (f : GoString) : Event → Option (Option GoString)
  | Event.writeFile file data res =>
    if file = f then
      match res with
      | WriteResult.ok => some (some data)
      | WriteResult.openFailed => none
      | WriteResult.failed written => some (some (data.take written))
    else none
  | Event.gitCheckout file content => if file = f then some content else none
  | _ => none

/-- The content `m` of the file `f` is what the last event that touched `f` left, and
that event is a successful write which recorded the local head read right after a
container build that succeeded. -/
def RecordedAfterBuild (log : List Event) (f m : GoString) : Prop :=
  ∃ pre post vt lt d out,
    log = pre ++ [Event.dockerBuild vt lt true, Event.gitRevParseHead d (some out),
      Event.writeFile f m WriteResult.ok] ++ post ∧
    m = TrimSpace out ∧ ∀ e ∈ post, touches f e = none

/-- The content `m` of the file `f` is what the last event that touched `f` left, and
that event is a successful write which recorded the local head read right after a
clone that succeeded. -/
def RecordedAfterClone (log : List Event) (f m : GoString) : Prop :=
  ∃ pre post b u d d' out,
    log = pre ++ [Event.gitClone b u d true, Event.gitRevParseHead d' (some out),
      Event.writeFile f m WriteResult.ok] ++ post ∧
    m = TrimSpace out ∧ ∀ e ∈ post, touches f e = none

/-- The content `m` of the file `f` is what the last event that touched `f` left, and
that event is not a successful write of the program: it is a write that failed after
truncating the file, or git checking out a tracked file of that name. -/
def LeftByOther (log : List Event) (f m : GoString) : Prop :=
  ∃ pre e post,
    log = pre ++ e :: post ∧ successfulWrite e = false ∧
    touches f e = some (some m) ∧ ∀ e' ∈ post, touches f e' = none

/-- The value of a decimal digit rune. -/
def digitVal (c : Char) : Nat := c.toNat - 48

/-- Read a run of decimal digits, most significant first. -/
def parseNat (l : GoString) : Nat := l.foldl (fun acc c => acc * 10 + digitVal c) 0

/-- Read an optionally signed run of decimal digits. -/
def parseInt (l : GoString) : Int :=
  if l.head? = some '-' then -(parseNat l.tail : Int) else (parseNat l : Int)


/-! ## Lemmas on the library functions -/

theorem fieldsLoop_some (s f : GoString) :
    fieldsLoop s (some f) =
      (f ++ s.takeWhile (fun c => !isSpace c)) ::
        fieldsLoop (s.dropWhile (fun c => !isSpace c)) none := by
  induction s generalizing f with
  | nil => simp [fieldsLoop]
  | cons c cs ih =>
    by_cases hc : isSpace c = true
    · simp [fieldsLoop, hc]
    · simp [fieldsLoop, hc, ih]

theorem fieldsLoop_none (s : GoString) :
    fieldsLoop s none = fieldsLoop (s.dropWhile isSpace) none := by
  induction s with
  | nil => rfl
  | cons c cs ih =>
    by_cases hc : isSpace c = true
    · simp [fieldsLoop, hc, ih]
    · simp [hc]

theorem Fields_eq_nil_iff (s : GoString) :
    Fields s = [] ↔ ∀ c ∈ s, isSpace c = true := by
  unfold Fields
  induction s with
  | nil => simp [fieldsLoop]
  | cons c cs ih =>
    by_cases hc : isSpace c = true
    · simp [fieldsLoop, hc, ih]
    · simp [fieldsLoop, hc, fieldsLoop_some]

theorem Fields_head (s : GoString) (h : ∃ c ∈ s, isSpace c = false) :
    ∃ rest, Fields s = firstField s :: rest := by
  unfold Fields firstField
  rw [fieldsLoop_none]
  cases hd : s.dropWhile isSpace with
  | nil =>
    rw [List.dropWhile_eq_nil_iff] at hd
    obtain ⟨c, hc, hs⟩ := h
    simp [hd c hc] at hs
  | cons c cs =>
    have hc : ¬ isSpace c = true := by
      have := List.head?_dropWhile_not isSpace s
      simpa [hd] using this
    refine ⟨fieldsLoop (cs.dropWhile (fun c => !isSpace c)) none, ?_⟩
    simp [fieldsLoop, hc, fieldsLoop_some]

theorem firstField_ne_nil (s : GoString) (h : ∃ c ∈ s, isSpace c = false) :
    firstField s ≠ [] := by
  unfold firstField
  cases hd : s.dropWhile isSpace with
  | nil =>
    rw [List.dropWhile_eq_nil_iff] at hd
    obtain ⟨c, hc, hs⟩ := h
    simp [hd c hc] at hs
  | cons c cs =>
    have hc : ¬ isSpace c = true := by
      have := List.head?_dropWhile_not isSpace s
      simpa [hd] using this
    simp [List.takeWhile, hc]

theorem firstField_no_space (s : GoString) : ∀ c ∈ firstField s, isSpace c = false := by
  intro c hc
  have := List.mem_takeWhile_imp hc
  simpa using this

theorem TrimSpace_eq_self (s : GoString)
    (hh : ∀ c, s.head? = some c → isSpace c = false)
    (hl : ∀ c, s.getLast? = some c → isSpace c = false) : TrimSpace s = s := by
  unfold TrimSpace
  have h1 : s.dropWhile isSpace = s := by
    cases s with
    | nil => rfl
    | cons c cs => simp [List.dropWhile, hh c rfl]
  rw [h1]
  have h2 : s.reverse.dropWhile isSpace = s.reverse := by
    cases hr : s.reverse with
    | nil => rfl
    | cons c cs =>
      have : s.getLast? = some c := by
        rw [← List.head?_reverse, hr]; rfl
      simp [List.dropWhile, hl c this]
  rw [h2, List.reverse_reverse]

theorem TrimSpace_head (s : GoString) :
    ∀ c, (TrimSpace s).head? = some c → isSpace c = false := by
  intro c hc
  have hp : TrimSpace s <+: s.dropWhile isSpace := List.rdropWhile_prefix isSpace _
  obtain ⟨t, ht⟩ := hp
  have h0 := List.head?_dropWhile_not isSpace s
  rw [← ht] at h0
  cases hT : TrimSpace s with
  | nil => simp [hT] at hc
  | cons d ds =>
    rw [hT] at hc h0
    simp at hc h0
    subst hc
    simpa using h0

theorem TrimSpace_last (s : GoString) :
    ∀ c, (TrimSpace s).getLast? = some c → isSpace c = false := by
  intro c hc
  unfold TrimSpace at hc
  rw [List.getLast?_reverse] at hc
  have h0 := List.head?_dropWhile_not isSpace (s.dropWhile isSpace).reverse
  rw [hc] at h0
  simpa using h0

theorem TrimSpace_idem (s : GoString) : TrimSpace (TrimSpace s) = TrimSpace s :=
  TrimSpace_eq_self _ (TrimSpace_head s) (TrimSpace_last s)

theorem Split_eq (sep : Char) (s : GoString) :
    Split sep s = s.takeWhile (fun c => c != sep) ::
      (match s.dropWhile (fun c => c != sep) with
        | [] => []
        | _ :: t => Split sep t) := by
  induction s with
  | nil => simp [Split]
  | cons c cs ih =>
    by_cases hc : c = sep
    · subst hc
      simp [Split]
    · rw [Split, if_neg hc, ih]
      simp [hc]

theorem Split_index_one (s : GoString) :
    (Split '/' s)[1]? = if '/' ∈ s then some (secondSegment s) else none := by
  rw [Split_eq]
  unfold secondSegment
  cases hd : s.dropWhile (fun c => c != '/') with
  | nil =>
    have : '/' ∉ s := by
      rw [List.dropWhile_eq_nil_iff] at hd
      intro hm
      simpa using hd _ hm
    simp [this]
  | cons c t =>
    have hm : '/' ∈ s := by
      by_contra hn
      have : s.dropWhile (fun c => c != '/') = [] := by
        rw [List.dropWhile_eq_nil_iff]
        intro x hx
        have : x ≠ '/' := fun h => hn (h ▸ hx)
        simpa using this
      rw [this] at hd
      cases hd
    simp only [hm, if_true]
    rw [Split_eq]
    simp

theorem TrimSuffix_append (x suffix : GoString) : TrimSuffix (x ++ suffix) suffix = x := by
  unfold TrimSuffix
  have : suffix.isSuffixOf (x ++ suffix) = true := by
    rw [List.isSuffixOf_iff_suffix]; exact List.suffix_append x suffix
  simp [this]

theorem TrimSuffix_of_not_suffix (s suffix : GoString) (h : ¬ suffix <:+ s) :
    TrimSuffix s suffix = s := by
  unfold TrimSuffix
  have : suffix.isSuffixOf s = false := by
    rw [← Bool.not_eq_true, List.isSuffixOf_iff_suffix]; exact h
  simp [this]

theorem digitVal_ofNat (d : Nat) (h : d < 10) : digitVal (Char.ofNat (48 + d)) = d := by
  interval_cases d <;> rfl

theorem ofNat_digit_ne_dash (d : Nat) (h : d < 10) : Char.ofNat (48 + d) ≠ '-' := by
  interval_cases d <;> decide

theorem parseNat_concat (l : GoString) (c : Char) :
    parseNat (l ++ [c]) = parseNat l * 10 + digitVal c := by
  simp [parseNat, List.foldl_append]

theorem parseNat_decimalDigits (fuel u : Nat) (h : u < fuel) :
    parseNat (decimalDigits fuel u) = u := by
  induction fuel generalizing u with
  | zero => omega
  | succ n ih =>
    unfold decimalDigits
    split_ifs with h10
    · simp [parseNat, digitVal_ofNat u h10]
    · rw [parseNat_concat, ih (u / 10) (by omega),
        digitVal_ofNat _ (Nat.mod_lt _ (by norm_num))]
      omega

theorem parseNat_replicate_zero (k : Nat) (l : GoString) :
    parseNat (List.replicate k '0' ++ l) = parseNat l := by
  induction k with
  | zero => simp
  | succ n ih =>
    have h0 : digitVal '0' = 0 := rfl
    simp only [parseNat, List.replicate_succ, List.cons_append, List.foldl_cons, h0] at ih ⊢
    exact ih

theorem decimalDigits_ne_dash (fuel u : Nat) : ∀ c ∈ decimalDigits fuel u, c ≠ '-' := by
  induction fuel generalizing u with
  | zero => simp [decimalDigits]
  | succ n ih =>
    intro c hc
    unfold decimalDigits at hc
    split_ifs at hc with h10
    · simp only [List.mem_singleton] at hc
      rw [hc]; exact ofNat_digit_ne_dash u h10
    · simp only [List.mem_append, List.mem_singleton] at hc
      rcases hc with hc | hc
      · exact ih _ c hc
      · rw [hc]; exact ofNat_digit_ne_dash _ (Nat.mod_lt _ (by norm_num))

theorem parseInt_appendInt (x : Int) (width : Nat) : parseInt (appendInt x width) = x := by
  unfold appendInt
  by_cases hx : x < 0
  · simp only [hx, if_true, parseInt, List.singleton_append, List.cons_append,
      List.head?_cons, List.tail_cons, List.nil_append]
    rw [parseNat_replicate_zero, parseNat_decimalDigits _ _ (Nat.lt_succ_self _)]
    omega
  · simp only [hx, if_false, List.nil_append]
    have hne : (List.replicate (width - (decimalDigits (x.natAbs + 1) x.natAbs).length) '0' ++
        decimalDigits (x.natAbs + 1) x.natAbs).head? ≠ some '-' := by
      intro hh
      have hm := List.mem_of_mem_head? hh
      rw [List.mem_append] at hm
      rcases hm with hm | hm
      · have := List.eq_of_mem_replicate hm
        exact absurd this (by decide)
      · exact decimalDigits_ne_dash _ _ _ hm rfl
    simp only [parseInt, hne, if_false]
    rw [parseNat_replicate_zero, parseNat_decimalDigits _ _ (Nat.lt_succ_self _)]
    omega

theorem parseNat_appendInt (n width : Nat) : parseNat (appendInt (n : Int) width) = n := by
  have hx : ¬ ((n : Int) < 0) := by omega
  simp only [appendInt, hx, if_false, List.nil_append, Int.natAbs_ofNat]
  rw [parseNat_replicate_zero, parseNat_decimalDigits _ _ (Nat.lt_succ_self _)]

theorem length_appendInt_two :
    ∀ n : Nat, n < 100 → (appendInt (n : Int) 2).length = 2 := by
  decide

theorem Format_inj (a b : Time) (ha : a.valid) (hb : b.valid) (h : Format a = Format b) :
    a.sameSecond b := by
  obtain ⟨_, ha1, _, ha2, ha3, ha4, ha5⟩ := ha
  obtain ⟨_, hb1, _, hb2, hb3, hb4, hb5⟩ := hb
  have len := length_appendInt_two
  unfold Format at h
  obtain ⟨h1, hs⟩ := List.append_inj' h
    (by rw [len _ (by omega), len _ (by omega)])
  obtain ⟨h2, hm⟩ := List.append_inj' h1
    (by rw [len _ (by omega), len _ (by omega)])
  obtain ⟨h3, hh⟩ := List.append_inj' h2
    (by rw [len _ (by omega), len _ (by omega)])
  obtain ⟨h4, -⟩ := List.append_inj' h3 rfl
  obtain ⟨h5, hD⟩ := List.append_inj' h4
    (by rw [len _ (by omega), len _ (by omega)])
  obtain ⟨h6, -⟩ := List.append_inj' h5 rfl
  obtain ⟨h7, hM⟩ := List.append_inj' h6
    (by rw [len _ (by omega), len _ (by omega)])
  obtain ⟨hY, -⟩ := List.append_inj' h7 rfl
  have eY := congrArg parseInt hY
  have eM := congrArg parseNat hM
  have eD := congrArg parseNat hD
  have eh := congrArg parseNat hh
  have em := congrArg parseNat hm
  have es := congrArg parseNat hs
  rw [parseInt_appendInt, parseInt_appendInt] at eY
  rw [parseNat_appendInt, parseNat_appendInt] at eM eD eh em es
  exact ⟨eY, eM, eD, eh, em, es⟩

theorem Format_congr (a b : Time) (h : a.sameSecond b) : Format a = Format b := by
  obtain ⟨h1, h2, h3, h4, h5, h6⟩ := h
  unfold Format
  rw [h1, h2, h3, h4, h5, h6]

/-! ## Lemmas on the world -/

@[simp] theorem World.emit_cwd (w : World) (e : Event) : (w.emit e).cwd = w.cwd := rfl

@[simp] theorem World.emit_dirs (w : World) (e : Event) : (w.emit e).dirs = w.dirs := rfl

@[simp] theorem World.emit_files (w : World) (e : Event) : (w.emit e).files = w.files := rfl

@[simp] theorem World.emit_log (w : World) (e : Event) : (w.emit e).log = w.log ++ [e] := rfl

@[simp] theorem World.emit_path (w : World) (e : Event) (p : GoString) :
    (w.emit e).path p = w.path p := rfl

@[simp] theorem World.setFile_cwd (w : World) (f : GoString) (c : Option GoString) :
    (w.setFile f c).cwd = w.cwd := rfl

@[simp] theorem World.setFile_dirs (w : World) (f : GoString) (c : Option GoString) :
    (w.setFile f c).dirs = w.dirs := rfl

@[simp] theorem World.setFile_log (w : World) (f : GoString) (c : Option GoString) :
    (w.setFile f c).log = w.log := rfl

@[simp] theorem World.setFile_path (w : World) (f : GoString) (c : Option GoString)
    (p : GoString) : (w.setFile f c).path p = w.path p := rfl

theorem World.setFile_files (w : World) (f : GoString) (c : Option GoString)
    (g : GoString) : (w.setFile f c).files g = if g = f then c else w.files g := rfl

@[simp] theorem World.setFile_files_same (w : World) (f : GoString)
    (c : Option GoString) : (w.setFile f c).files f = c := by
  simp [World.setFile_files]

theorem World.setFile_files_other (w : World) (f g : GoString) (c : Option GoString)
    (h : g ≠ f) : (w.setFile f c).files g = w.files g := by
  simp [World.setFile_files, h]

@[simp] theorem World.addDir_cwd (w : World) (d : GoString) : (w.addDir d).cwd = w.cwd := rfl

@[simp] theorem World.addDir_files (w : World) (d : GoString) :
    (w.addDir d).files = w.files := rfl

@[simp] theorem World.addDir_log (w : World) (d : GoString) : (w.addDir d).log = w.log := rfl

@[simp] theorem World.addDir_path (w : World) (d p : GoString) :
    (w.addDir d).path p = w.path p := rfl

theorem World.path_append (w : World) (p s : GoString) : w.path (p ++ s) = w.path p ++ s := by
  unfold World.path joinPath
  split_ifs <;> simp

/-- After `os.Chdir(directory)`, the name `.last_commit` is the file that
`directory + "/.last_commit"` names before it. -/
theorem World.markerAfterChdir_eq (w : World) (directory : GoString)
    (h : w.path directory ≠ []) :
    w.markerAfterChdir directory = w.path (directory ++ "/.last_commit".toList) := by
  rw [World.path_append]
  unfold World.markerAfterChdir joinPath
  rw [if_neg h]
  simp

/-! ## Properties of the pure functions -/

/-- C7: `GetRemoteHash` returns an error (and the empty string) exactly when the
`ls-remote` command fails or its output has no non-whitespace rune; for every other
output it returns, with a nil error, the first whitespace-delimited field of the
output, which is non-empty and holds no whitespace. -/
theorem GetRemoteHash_fails_iff (project branch : GoString) (out : Option GoString)
    (w : World) :
    ((GetRemoteHash project branch out w).1.2 ≠ none ↔
      (out = none ∨ ∃ o, out = some o ∧ ∀ c ∈ o, isSpace c = true)) ∧
    ((GetRemoteHash project branch out w).1.2 ≠ none →
      (GetRemoteHash project branch out w).1.1 = []) ∧
    (∀ o, out = some o → (∃ c ∈ o, isSpace c = false) →
      (GetRemoteHash project branch out w).1 = (firstField o, none) ∧
      firstField o ≠ [] ∧ ∀ c ∈ firstField o, isSpace c = false) := by
  cases out with
  | none => simp [GetRemoteHash]
  | some o =>
    by_cases hall : ∀ c ∈ o, isSpace c = true
    · have hF := (Fields_eq_nil_iff o).mpr hall
      refine ⟨?_, ?_, ?_⟩
      · simpa [GetRemoteHash, hF] using hall
      · simp [GetRemoteHash, hF]
      · intro o2 ho2 hex
        cases ho2
        obtain ⟨c, hc, hs⟩ := hex
        simp [hall c hc] at hs
    · have hex : ∃ c ∈ o, isSpace c = false := by
        push_neg at hall
        obtain ⟨c, hc, hs⟩ := hall
        exact ⟨c, hc, by simpa using hs⟩
      obtain ⟨rest, hF⟩ := Fields_head o hex
      refine ⟨?_, ?_, ?_⟩
      · simp only [GetRemoteHash, hF]
        constructor
        · intro h; exact absurd rfl h
        · rintro (h | ⟨o2, ho2, h2⟩)
          · cases h
          · cases ho2; exact absurd h2 hall
      · simp [GetRemoteHash, hF]
      · intro o2 ho2 _
        cases ho2
        exact ⟨by simp [GetRemoteHash, hF], firstField_ne_nil o hex, firstField_no_space o⟩

/-- C7, at a concrete output of `git ls-remote`: the hash is the first field. -/
theorem GetRemoteHash_fails_iff_witness :
    (GetRemoteHash "u".toList "main".toList (some "ab12\trefs/heads/main\n".toList)
        initial).1 = ("ab12".toList, none) := by
  have h := (GetRemoteHash_fails_iff "u".toList "main".toList
    (some "ab12\trefs/heads/main\n".toList) initial).2.2
    "ab12\trefs/heads/main\n".toList rfl ⟨'a', by decide, by decide⟩
  rw [h.1]
  decide

/-- C10: `getDirectory` indexes element 1 of `PROJECT` split on `/`; the index is in
range exactly when the project holds a `/`, and then the result is, with a nil error,
the segment between the first and the second `/` with one trailing `.git` removed
(`owner/repo` and `owner/repo.git` both give `repo`).  The check in `main` asks of
`PROJECT` only that it be non-empty, so a project without a `/` passes it and `main`
stops in the index panic of `getDirectory`. -/
theorem getDirectory_spec (project : GoString) :
    ((getDirectory project).isSome = true ↔ '/' ∈ project) ∧
    ('/' ∈ project →
      getDirectory project =
        some (TrimSuffix (secondSegment project) ".git".toList, none)) ∧
    (∀ x, '/' ∈ project → secondSegment project = x ++ ".git".toList →
      getDirectory project = some (x, none)) ∧
    ('/' ∈ project → ¬ ".git".toList <:+ secondSegment project →
      getDirectory project = some (secondSegment project, none)) ∧
    getDirectory "owner/repo".toList = some ("repo".toList, none) ∧
    getDirectory "owner/repo.git".toList = some ("repo".toList, none) ∧
    (∀ e : Environ, envValid e = true ↔
      e.project ≠ [] ∧ e.token ≠ [] ∧ e.ecr ≠ [] ∧ e.region ≠ []) ∧
    (∀ (e : Environ) (o : MainOracle) (w : World), envValid e = true →
      '/' ∉ e.project →
      main e o w = (Exit.panic,
        ((w.Mkdir "repos".toList o.mkdir).2.Chdir "repos".toList o.chdir).2)) := by
  have key : ∀ p : GoString, getDirectory p =
      if '/' ∈ p then some (TrimSuffix (secondSegment p) ".git".toList, none) else none := by
    intro p
    unfold getDirectory
    simp only [Split_index_one]
    split_ifs <;> rfl
  refine ⟨?_, ?_, ?_, ?_, ?_, ?_, ?_, ?_⟩
  · rw [key]; split_ifs with h <;> simp [h]
  · intro h; rw [key, if_pos h]
  · intro x h hx; rw [key, if_pos h, hx, TrimSuffix_append]
  · intro h hn; rw [key, if_pos h, TrimSuffix_of_not_suffix _ _ hn]
  · decide
  · decide
  · intro e
    simp [envValid]
    tauto
  · intro e o w hv hn
    unfold main
    rw [key, if_neg hn]
    simp [hv]

/-- C10, at the project `owner/repo.git`: it holds a `/`, and the directory is `repo`. -/
theorem getDirectory_spec_witness :
    getDirectory "owner/repo.git".toList =
      some (TrimSuffix (secondSegment "owner/repo.git".toList) ".git".toList, none) :=
  (getDirectory_spec "owner/repo.git".toList).2.1 (by decide)

/-! ## Properties of `checkOrClone` and `DockerBuild` -/

/-- C1: on an existing working copy, when the fetch succeeds and the remote query
succeeds with hash `r`, `checkOrClone` returns `(buildRequired, nil)` where
`buildRequired` is true exactly when `r` differs from the stored marker: the trimmed
content of `<directory>/.last_commit`, or the empty string when the file cannot be
read.  For equal identifiers it returns false.  The marker file is only read. -/
theorem checkOrClone_existing (directory authURL branch : GoString) (o : SyncOracle)
    (w : World) (out r : GoString)
    (hdir : w.dirs (w.path directory) = true) (hfetch : o.fetch = true)
    (hls : o.lsRemote = some out)
    (hr : ∀ w1, (GetRemoteHash authURL branch (some out) w1).1 = (r, none)) :
    (checkOrClone directory authURL branch o w).1 =
      (decide (r ≠ (match w.files (w.path (directory ++ "/.last_commit".toList)) with
        | some data => TrimSpace data
        | none => [])), none) ∧
    (checkOrClone directory authURL branch o w).2.files = w.files ∧
    (checkOrClone directory authURL branch o w).2.log = w.log ++
      [Event.gitFetch directory branch true,
       Event.gitLsRemote authURL branch (some out),
       Event.readFile (w.path (directory ++ "/.last_commit".toList))
         (w.files (w.path (directory ++ "/.last_commit".toList)))] := by
  have hF : ∃ rest, Fields out = r :: rest := by
    have h := hr w
    unfold GetRemoteHash at h
    cases hf : Fields out with
    | nil => simp [hf] at h
    | cons p ps =>
      simp [hf] at h
      exact ⟨ps, by rw [h]⟩
  obtain ⟨rest, hF⟩ := hF
  cases hm : w.files (w.path (directory ++ "/.last_commit".toList)) with
  | none =>
    simp only [checkOrClone, GetRemoteHash, readStoredHash, hdir, hfetch, hls, hF,
      World.emit_path, World.emit_files, hm]
    by_cases hrs : r = []
    · simp [hrs]
    · simp [hrs]
  | some data =>
    simp only [checkOrClone, GetRemoteHash, readStoredHash, hdir, hfetch, hls, hF,
      World.emit_path, World.emit_files, hm]
    by_cases hrs : r = TrimSpace data
    · simp [hrs]
    · simp [hrs]

/-- C1, on a working copy whose marker file holds `abc` and a newline, with the remote
at `def`: a build is required. -/
theorem checkOrClone_existing_witness :
    (checkOrClone "repo".toList "u".toList "main".toList
        ⟨false, none, none, WriteResult.ok, true, some "def\trefs/heads/main\n".toList⟩
        (existingCopy "abc\n".toList)).1 = (true, none) := by
  have h := checkOrClone_existing "repo".toList "u".toList "main".toList
    ⟨false, none, none, WriteResult.ok, true, some "def\trefs/heads/main\n".toList⟩
    (existingCopy "abc\n".toList) "def\trefs/heads/main\n".toList "def".toList
    (by decide) rfl rfl (fun _ => rfl)
  rw [h.1]
  decide

/-- C2: when the working copy does not exist and the clone, the local-head query and
the marker write all succeed, `checkOrClone` returns `(true, nil)`, the marker file
holds exactly the trimmed local head returned by `GetHeadHash`, and the commands run
are the clone (with the tree it checks out), `rev-parse HEAD` and the write of the
marker, nothing else: neither the remote head nor a previous marker is consulted. -/
theorem checkOrClone_fresh (directory authURL branch : GoString) (o : SyncOracle)
    (w : World) (out : GoString)
    (hdir : w.dirs (w.path directory) = false) (hclone : o.clone = true)
    (hhead : o.head = some out) (hwrite : o.write = WriteResult.ok) :
    (checkOrClone directory authURL branch o w).1 = (true, none) ∧
    (∀ w1, (checkOrClone directory authURL branch o w).2.files
        (w.path (directory ++ "/.last_commit".toList)) =
      some (GetHeadHash directory o.head w1).1.1) ∧
    (checkOrClone directory authURL branch o w).2.files
        (w.path (directory ++ "/.last_commit".toList)) = some (TrimSpace out) ∧
    (checkOrClone directory authURL branch o w).2.log = w.log ++
      [Event.gitCheckout (w.path (directory ++ "/.last_commit".toList)) o.cloneMarker,
       Event.gitClone branch authURL directory true,
       Event.gitRevParseHead directory (some out),
       Event.writeFile (w.path (directory ++ "/.last_commit".toList)) (TrimSpace out)
         WriteResult.ok] := by
  simp [checkOrClone, GetHeadHash, World.WriteFile, World.gitCheckout, hdir, hclone,
    hhead, hwrite]

/-- C2, on the empty world with `rev-parse HEAD` answering `abc` and a newline. -/
theorem checkOrClone_fresh_witness :
    (checkOrClone "repo".toList "u".toList "main".toList
        ⟨true, none, some "abc\n".toList, WriteResult.ok, false, none⟩ initial).1 =
      (true, none) :=
  (checkOrClone_fresh "repo".toList "u".toList "main".toList
    ⟨true, none, some "abc\n".toList, WriteResult.ok, false, none⟩ initial
    "abc\n".toList rfl rfl rfl rfl).1

/-- C8: marker round trip.  For every commit identifier `X`, that is every value
`GetHeadHash` returns, the only values `checkOrClone` and `DockerBuild` write, writing
the bare `X` as the marker and reading the marker back as `checkOrClone` does, trimming
whitespace, returns `X` exactly; so does every `X` that neither starts nor ends with
whitespace.  In particular the marker written by a `checkOrClone` that clones, and the
marker written by a successful `DockerBuild` and read from the directory the run
started in, read back as the local head that was written. -/
theorem marker_round_trip (directory out path : GoString) (w0 w : World) :
    (readStoredHash
      (w.WriteFile path (GetHeadHash directory (some out) w0).1.1 WriteResult.ok) path).1 =
      (GetHeadHash directory (some out) w0).1.1 ∧
    (∀ X : GoString, (∀ c, X.head? = some c → isSpace c = false) →
      (∀ c, X.getLast? = some c → isSpace c = false) →
      (readStoredHash (w.WriteFile path X WriteResult.ok) path).1 = X) ∧
    (∀ (authURL branch : GoString) (o : SyncOracle),
      w.dirs (w.path directory) = false → o.clone = true → o.head = some out →
      o.write = WriteResult.ok →
      (readStoredHash (checkOrClone directory authURL branch o w).2
        (directory ++ "/.last_commit".toList)).1 =
        (GetHeadHash directory (some out) w0).1.1) ∧
    (∀ (ecr : GoString) (o : BuildOracle),
      (DockerBuild directory ecr o w).1.2 = none → o.head = some out →
      w.path directory ≠ [] →
      (readStoredHash { (DockerBuild directory ecr o w).2 with cwd := w.cwd }
        (directory ++ "/.last_commit".toList)).1 =
        (GetHeadHash ".".toList (some out) w0).1.1) := by
  have h : ∀ Y, (readStoredHash (w.WriteFile path Y WriteResult.ok) path).1 =
      TrimSpace Y := by
    intro Y
    simp [readStoredHash, World.WriteFile, World.path]
  refine ⟨?_, ?_, ?_, ?_⟩
  · rw [h]
    simp [GetHeadHash, TrimSpace_idem]
  · intro X hh hl
    rw [h, TrimSpace_eq_self X hh hl]
  · intro authURL branch o hdir hclone hhead hwrite
    simp only [World.path] at hdir
    simp [checkOrClone, GetHeadHash, readStoredHash, World.WriteFile,
      World.gitCheckout, World.path, hdir, hclone, hhead, hwrite, TrimSpace_idem]
  · intro ecr o hok hhead hne
    have hkey := World.markerAfterChdir_eq w directory hne
    simp only [World.markerAfterChdir, World.path, String.toList] at hkey
    obtain ⟨chdir, pull, pullMarker, now, build, head, write⟩ := o
    simp only at hhead
    subst hhead
    revert hok
    cases hd : w.dirs (joinPath w.cwd directory)
    · simp [DockerBuild, World.Chdir, World.path, hd]
    cases chdir
    · simp [DockerBuild, World.Chdir, World.path, hd]
    cases pull
    · simp [DockerBuild, World.Chdir, World.path, hd]
    cases build
    · simp [DockerBuild, World.Chdir, World.path, hd]
    cases write
    · intro _
      cases pullMarker <;>
        simp [DockerBuild, World.Chdir, World.path, GetHeadHash, World.WriteFile, hd,
          World.gitCheckout, readStoredHash, hkey, TrimSpace_idem]
    · simp [DockerBuild, World.Chdir, World.path, GetHeadHash, World.WriteFile, hd]
    · simp [DockerBuild, World.Chdir, World.path, GetHeadHash, World.WriteFile, hd]

/-- C8, at the identifier `abc`, which has no surrounding whitespace: it reads back
unchanged. -/
theorem marker_round_trip_witness :
    (readStoredHash (initial.WriteFile "r/.last_commit".toList "abc".toList
      WriteResult.ok) "r/.last_commit".toList).1 = "abc".toList :=
  (marker_round_trip "r".toList "abc\n".toList "r/.last_commit".toList initial
    initial).2.1 "abc".toList (by decide) (by decide)

theorem DockerBuild_success (directory ecr : GoString) (o : BuildOracle) (w : World)
    (h : (DockerBuild directory ecr o w).1.2 = none) :
    (DockerBuild directory ecr o w).1.1 = ecr ++ ":".toList ++ Format o.now ∧
    Event.dockerBuild (ecr ++ ":".toList ++ Format o.now) (ecr ++ ":latest".toList) true ∈
      (DockerBuild directory ecr o w).2.log := by
  obtain ⟨chdir, pull, pullMarker, now, build, head, write⟩ := o
  revert h
  cases hd : w.dirs (joinPath w.cwd directory)
  · simp [DockerBuild, World.Chdir, World.path, hd]
  cases chdir
  · simp [DockerBuild, World.Chdir, World.path, hd]
  cases pull
  · simp [DockerBuild, World.Chdir, World.path, hd]
  cases build
  · simp [DockerBuild, World.Chdir, World.path, hd]
  cases head with
  | none => simp [DockerBuild, World.Chdir, World.path, GetHeadHash, hd]
  | some out =>
    cases write <;> cases pullMarker <;>
      simp [DockerBuild, World.Chdir, World.path, GetHeadHash, World.WriteFile, hd,
        World.gitCheckout]

/-- C9: a successful `DockerBuild` returns the version tag
`<registryRepoUrl>:<timestamp formatted as 2006-01-02t150405>` and runs `docker build`
with that tag and with `<registryRepoUrl>:latest`; two successful builds with the same
registry URL return the same version tag exactly when their timestamps, the wall-clock
readings `Format` prints, agree down to the second, so distinct tags when they differ
at second granularity. -/
theorem DockerBuild_version_tag (directory₁ directory₂ ecr : GoString)
    (o₁ o₂ : BuildOracle) (w₁ w₂ : World)
    (h₁ : (DockerBuild directory₁ ecr o₁ w₁).1.2 = none)
    (h₂ : (DockerBuild directory₂ ecr o₂ w₂).1.2 = none)
    (hv₁ : o₁.now.valid) (hv₂ : o₂.now.valid) :
    (DockerBuild directory₁ ecr o₁ w₁).1.1 = ecr ++ ":".toList ++ Format o₁.now ∧
    Event.dockerBuild (ecr ++ ":".toList ++ Format o₁.now) (ecr ++ ":latest".toList) true ∈
      (DockerBuild directory₁ ecr o₁ w₁).2.log ∧
    ((DockerBuild directory₁ ecr o₁ w₁).1.1 = (DockerBuild directory₂ ecr o₂ w₂).1.1 ↔
      o₁.now.sameSecond o₂.now) := by
  obtain ⟨t₁, e₁⟩ := DockerBuild_success directory₁ ecr o₁ w₁ h₁
  obtain ⟨t₂, -⟩ := DockerBuild_success directory₂ ecr o₂ w₂ h₂
  refine ⟨t₁, e₁, ?_⟩
  rw [t₁, t₂]
  constructor
  · intro h
    exact Format_inj _ _ hv₁ hv₂ (List.append_cancel_left h)
  · intro h
    rw [Format_congr _ _ h]

/-- C9, for two successful builds one second apart on 2024-01-01: the first returns
`reg/repo:2024-01-01t000000`. -/
theorem DockerBuild_version_tag_witness :
    (DockerBuild "repo".toList "reg/repo".toList
        ⟨true, true, none, ⟨2024, 1, 1, 0, 0, 0, 0⟩, true, some "abc\n".toList,
          WriteResult.ok⟩
        (existingCopy "abc".toList)).1.1 = "reg/repo:2024-01-01t000000".toList := by
  have h := (DockerBuild_version_tag "repo".toList "repo".toList "reg/repo".toList
    ⟨true, true, none, ⟨2024, 1, 1, 0, 0, 0, 0⟩, true, some "abc\n".toList,
      WriteResult.ok⟩
    ⟨true, true, none, ⟨2024, 1, 1, 0, 0, 1, 0⟩, true, some "abc\n".toList,
      WriteResult.ok⟩
    (existingCopy "abc".toList) (existingCopy "abc".toList) (by decide) (by decide)
    (by decide) (by decide)).1
  rw [h]
  decide

/-! ## The marker over runs of `checkOrClone` and `DockerBuild` -/

theorem RecordedAfterBuild_extend (log evs : List Event) (f m : GoString)
    (h : RecordedAfterBuild log f m) (hevs : ∀ e ∈ evs, touches f e = none) :
    RecordedAfterBuild (log ++ evs) f m := by
  obtain ⟨pre, post, vt, lt, d, out, hlog, hm, hpost⟩ := h
  refine ⟨pre, post ++ evs, vt, lt, d, out, ?_, hm, ?_⟩
  · rw [hlog]; simp
  · intro e he
    rcases List.mem_append.mp he with he | he
    · exact hpost e he
    · exact hevs e he

theorem RecordedAfterClone_extend (log evs : List Event) (f m : GoString)
    (h : RecordedAfterClone log f m) (hevs : ∀ e ∈ evs, touches f e = none) :
    RecordedAfterClone (log ++ evs) f m := by
  obtain ⟨pre, post, b, u, d, d', out, hlog, hm, hpost⟩ := h
  refine ⟨pre, post ++ evs, b, u, d, d', out, ?_, hm, ?_⟩
  · rw [hlog]; simp
  · intro e he
    rcases List.mem_append.mp he with he | he
    · exact hpost e he
    · exact hevs e he

theorem LeftByOther_extend (log evs : List Event) (f m : GoString)
    (h : LeftByOther log f m) (hevs : ∀ e ∈ evs, touches f e = none) :
    LeftByOther (log ++ evs) f m := by
  obtain ⟨pre, e, post, hlog, hw, ht, hpost⟩ := h
  refine ⟨pre, e, post ++ evs, ?_, hw, ht, ?_⟩
  · rw [hlog]; simp
  · intro e' he
    rcases List.mem_append.mp he with he | he
    · exact hpost e' he
    · exact hevs e' he

theorem checkOrClone_effect (directory authURL branch : GoString) (o : SyncOracle)
    (w : World) (f : GoString) :
    ((checkOrClone directory authURL branch o w).2.files f = w.files f ∧
      ∃ evs, (checkOrClone directory authURL branch o w).2.log = w.log ++ evs ∧
        ∀ e ∈ evs, touches f e = none) ∨
    (∃ pre out, (checkOrClone directory authURL branch o w).2.files f =
        some (TrimSpace out) ∧
      (checkOrClone directory authURL branch o w).2.log = w.log ++ pre ++
        [Event.gitClone branch authURL directory true,
         Event.gitRevParseHead directory (some out),
         Event.writeFile f (TrimSpace out) WriteResult.ok]) ∨
    (∃ pre e post, (checkOrClone directory authURL branch o w).2.log =
        w.log ++ pre ++ e :: post ∧ successfulWrite e = false ∧
      touches f e = some ((checkOrClone directory authURL branch o w).2.files f) ∧
      ∀ e' ∈ post, touches f e' = none) := by
  obtain ⟨clone, cloneMarker, head, write, fetch, lsRemote⟩ := o
  cases hd : w.dirs (joinPath w.cwd directory)
  · cases clone
    · left; simp [checkOrClone, World.path, hd, touches]
    by_cases hf : f = joinPath w.cwd (directory ++ "/.last_commit".toList)
    · subst hf
      cases head with
      | none =>
        right; right
        refine ⟨[], Event.gitCheckout
          (joinPath w.cwd (directory ++ "/.last_commit".toList)) cloneMarker,
          [Event.gitClone branch authURL directory true,
           Event.gitRevParseHead directory none], ?_, rfl, ?_, ?_⟩
        · simp [checkOrClone, GetHeadHash, World.gitCheckout, World.path, hd]
        · simp [checkOrClone, GetHeadHash, World.gitCheckout, World.path, hd, touches]
        · simp [touches]
      | some out =>
        cases write with
        | ok =>
          right; left
          refine ⟨[Event.gitCheckout
            (joinPath w.cwd (directory ++ "/.last_commit".toList)) cloneMarker], out,
            ?_, ?_⟩
          · simp [checkOrClone, GetHeadHash, World.gitCheckout, World.WriteFile,
              World.path, hd]
          · simp [checkOrClone, GetHeadHash, World.gitCheckout, World.WriteFile,
              World.path, hd]
        | openFailed =>
          right; right
          refine ⟨[], Event.gitCheckout
            (joinPath w.cwd (directory ++ "/.last_commit".toList)) cloneMarker,
            [Event.gitClone branch authURL directory true,
             Event.gitRevParseHead directory (some out),
             Event.writeFile (joinPath w.cwd (directory ++ "/.last_commit".toList))
               (TrimSpace out) WriteResult.openFailed], ?_, rfl, ?_, ?_⟩
          · simp [checkOrClone, GetHeadHash, World.gitCheckout, World.WriteFile,
              World.path, hd]
          · simp [checkOrClone, GetHeadHash, World.gitCheckout, World.WriteFile,
              World.path, hd, touches]
          · simp [touches]
        | failed written =>
          right; right
          refine ⟨[Event.gitCheckout
              (joinPath w.cwd (directory ++ "/.last_commit".toList)) cloneMarker,
            Event.gitClone branch authURL directory true,
            Event.gitRevParseHead directory (some out)],
            Event.writeFile (joinPath w.cwd (directory ++ "/.last_commit".toList))
              (TrimSpace out) (WriteResult.failed written), [], ?_, rfl, ?_, ?_⟩
          · simp [checkOrClone, GetHeadHash, World.gitCheckout, World.WriteFile,
              World.path, hd]
          · simp [checkOrClone, GetHeadHash, World.gitCheckout, World.WriteFile,
              World.path, hd, touches]
          · simp
    · left
      have hf' : ¬ joinPath w.cwd (directory ++ "/.last_commit".toList) = f :=
        fun h => hf h.symm
      simp only [String.toList] at hf hf'
      cases head with
      | none =>
        simp [checkOrClone, GetHeadHash, World.gitCheckout, World.path, hd, touches,
          World.setFile_files, hf, hf']
      | some out =>
        cases write <;>
          simp [checkOrClone, GetHeadHash, World.gitCheckout, World.WriteFile,
            World.path, hd, touches, World.setFile_files, hf, hf']
  · left
    cases fetch
    · simp [checkOrClone, World.path, hd, touches]
    · cases lsRemote with
      | none => simp [checkOrClone, GetRemoteHash, World.path, hd, touches]
      | some out =>
        cases hF : Fields out with
        | nil => simp [checkOrClone, GetRemoteHash, World.path, hd, touches, hF]
        | cons r rest =>
          cases hm : w.files (joinPath w.cwd (directory ++ "/.last_commit".toList)) with
          | none =>
            simp only [String.toList] at hm
            by_cases hr : r = []
            · simp [checkOrClone, GetRemoteHash, readStoredHash, World.path, hd, hF, hm,
                touches, hr]
            · simp [checkOrClone, GetRemoteHash, readStoredHash, World.path, hd, hF, hm,
                touches, hr]
          | some data =>
            simp only [String.toList] at hm
            by_cases hr : r = TrimSpace data
            · simp [checkOrClone, GetRemoteHash, readStoredHash, World.path, hd, hF, hm,
                touches, hr]
            · simp [checkOrClone, GetRemoteHash, readStoredHash, World.path, hd, hF, hm,
                touches, hr]

theorem DockerBuild_effect (directory ecr : GoString) (o : BuildOracle) (w : World)
    (f : GoString) :
    ((DockerBuild directory ecr o w).2.files f = w.files f ∧
      ∃ evs, (DockerBuild directory ecr o w).2.log = w.log ++ evs ∧
        ∀ e ∈ evs, touches f e = none) ∨
    (∃ pre vt lt out, (DockerBuild directory ecr o w).2.files f = some (TrimSpace out) ∧
      (DockerBuild directory ecr o w).2.log = w.log ++ pre ++
        [Event.dockerBuild vt lt true,
         Event.gitRevParseHead ".".toList (some out),
         Event.writeFile f (TrimSpace out) WriteResult.ok]) ∨
    (∃ pre e post, (DockerBuild directory ecr o w).2.log =
        w.log ++ pre ++ e :: post ∧ successfulWrite e = false ∧
      touches f e = some ((DockerBuild directory ecr o w).2.files f) ∧
      ∀ e' ∈ post, touches f e' = none) := by
  obtain ⟨chdir, pull, pullMarker, now, build, head, write⟩ := o
  cases hd : w.dirs (joinPath w.cwd directory)
  · left; simp [DockerBuild, World.Chdir, World.path, hd, touches]
  cases chdir
  · left; simp [DockerBuild, World.Chdir, World.path, hd, touches]
  by_cases hf : f = joinPath (joinPath w.cwd directory) ".last_commit".toList
  · subst hf
    cases pullMarker with
    | none =>
      cases pull
      · left; simp [DockerBuild, World.Chdir, World.path, hd, touches]
      cases build
      · left; simp [DockerBuild, World.Chdir, World.path, hd, touches]
      cases head with
      | none => left; simp [DockerBuild, World.Chdir, World.path, GetHeadHash, hd, touches]
      | some out =>
        cases write with
        | ok =>
          right; left
          refine ⟨[Event.chdir directory true, Event.gitPull true],
            ecr ++ ":".toList ++ Format now, ecr ++ ":latest".toList, out, ?_, ?_⟩
          · simp [DockerBuild, World.Chdir, World.path, GetHeadHash, World.WriteFile, hd]
          · simp [DockerBuild, World.Chdir, World.path, GetHeadHash, World.WriteFile, hd]
        | openFailed =>
          left
          simp [DockerBuild, World.Chdir, World.path, GetHeadHash, World.WriteFile, hd,
            touches]
        | failed written =>
          right; right
          refine ⟨[Event.chdir directory true, Event.gitPull true,
            Event.dockerBuild (ecr ++ ":".toList ++ Format now)
              (ecr ++ ":latest".toList) true,
            Event.gitRevParseHead ".".toList (some out)],
            Event.writeFile (joinPath (joinPath w.cwd directory) ".last_commit".toList)
              (TrimSpace out) (WriteResult.failed written), [], ?_, rfl, ?_, ?_⟩
          · simp [DockerBuild, World.Chdir, World.path, GetHeadHash, World.WriteFile, hd]
          · simp [DockerBuild, World.Chdir, World.path, GetHeadHash, World.WriteFile, hd,
              touches]
          · simp
    | some c =>
      cases pull
      · right; right
        refine ⟨[Event.chdir directory true],
          Event.gitCheckout (joinPath (joinPath w.cwd directory) ".last_commit".toList) c,
          [Event.gitPull false], ?_, rfl, ?_, ?_⟩
        · simp [DockerBuild, World.Chdir, World.path, World.gitCheckout, hd]
        · simp [DockerBuild, World.Chdir, World.path, World.gitCheckout, hd, touches]
        · simp [touches]
      cases build
      · right; right
        refine ⟨[Event.chdir directory true],
          Event.gitCheckout (joinPath (joinPath w.cwd directory) ".last_commit".toList) c,
          [Event.gitPull true,
           Event.dockerBuild (ecr ++ ":".toList ++ Format now)
             (ecr ++ ":latest".toList) false], ?_, rfl, ?_, ?_⟩
        · simp [DockerBuild, World.Chdir, World.path, World.gitCheckout, hd]
        · simp [DockerBuild, World.Chdir, World.path, World.gitCheckout, hd, touches]
        · simp [touches]
      cases head with
      | none =>
        right; right
        refine ⟨[Event.chdir directory true],
          Event.gitCheckout (joinPath (joinPath w.cwd directory) ".last_commit".toList) c,
          [Event.gitPull true,
           Event.dockerBuild (ecr ++ ":".toList ++ Format now)
             (ecr ++ ":latest".toList) true,
           Event.gitRevParseHead ".".toList none], ?_, rfl, ?_, ?_⟩
        · simp [DockerBuild, World.Chdir, World.path, World.gitCheckout, GetHeadHash, hd]
        · simp [DockerBuild, World.Chdir, World.path, World.gitCheckout, GetHeadHash, hd,
            touches]
        · simp [touches]
      | some out =>
        cases write with
        | ok =>
          right; left
          refine ⟨[Event.chdir directory true,
            Event.gitCheckout
              (joinPath (joinPath w.cwd directory) ".last_commit".toList) c,
            Event.gitPull true],
            ecr ++ ":".toList ++ Format now, ecr ++ ":latest".toList, out, ?_, ?_⟩
          · simp [DockerBuild, World.Chdir, World.path, World.gitCheckout, GetHeadHash,
              World.WriteFile, hd]
          · simp [DockerBuild, World.Chdir, World.path, World.gitCheckout, GetHeadHash,
              World.WriteFile, hd]
        | openFailed =>
          right; right
          refine ⟨[Event.chdir directory true],
            Event.gitCheckout
              (joinPath (joinPath w.cwd directory) ".last_commit".toList) c,
            [Event.gitPull true,
             Event.dockerBuild (ecr ++ ":".toList ++ Format now)
               (ecr ++ ":latest".toList) true,
             Event.gitRevParseHead ".".toList (some out),
             Event.writeFile (joinPath (joinPath w.cwd directory) ".last_commit".toList)
               (TrimSpace out) WriteResult.openFailed], ?_, rfl, ?_, ?_⟩
          · simp [DockerBuild, World.Chdir, World.path, World.gitCheckout, GetHeadHash,
              World.WriteFile, hd]
          · simp [DockerBuild, World.Chdir, World.path, World.gitCheckout, GetHeadHash,
              World.WriteFile, hd, touches]
          · simp [touches]
        | failed written =>
          right; right
          refine ⟨[Event.chdir directory true,
            Event.gitCheckout
              (joinPath (joinPath w.cwd directory) ".last_commit".toList) c,
            Event.gitPull true,
            Event.dockerBuild (ecr ++ ":".toList ++ Format now)
              (ecr ++ ":latest".toList) true,
            Event.gitRevParseHead ".".toList (some out)],
            Event.writeFile (joinPath (joinPath w.cwd directory) ".last_commit".toList)
              (TrimSpace out) (WriteResult.failed written), [], ?_, rfl, ?_, ?_⟩
          · simp [DockerBuild, World.Chdir, World.path, World.gitCheckout, GetHeadHash,
              World.WriteFile, hd]
          · simp [DockerBuild, World.Chdir, World.path, World.gitCheckout, GetHeadHash,
              World.WriteFile, hd, touches]
          · simp
  · left
    have hf' : ¬ joinPath (joinPath w.cwd directory) ".last_commit".toList = f :=
      fun h => hf h.symm
    simp only [String.toList] at hf hf'
    cases pull
    · cases pullMarker <;>
        simp [DockerBuild, World.Chdir, World.path, World.gitCheckout, hd, touches,
          World.setFile_files, hf, hf']
    cases build
    · cases pullMarker <;>
        simp [DockerBuild, World.Chdir, World.path, World.gitCheckout, hd, touches,
          World.setFile_files, hf, hf']
    cases head with
    | none =>
      cases pullMarker <;>
        simp [DockerBuild, World.Chdir, World.path, World.gitCheckout, GetHeadHash, hd,
          touches, World.setFile_files, hf, hf']
    | some out =>
      cases pullMarker <;> cases write <;>
        simp [DockerBuild, World.Chdir, World.path, World.gitCheckout, GetHeadHash,
          World.WriteFile, hd, touches, World.setFile_files, hf, hf']

theorem marker_classified (w : World) (hw : Reachable w) (f m : GoString)
    (hm : w.files f = some m) :
    RecordedAfterClone w.log f m ∨ RecordedAfterBuild w.log f m ∨
      LeftByOther w.log f m := by
  induction hw generalizing m with
  | init => cases hm
  | @step w0 w1 hr hs ih =>
    cases hs with
    | start cwd => exact ih m hm
    | sync directory authURL branch o =>
      rcases checkOrClone_effect directory authURL branch o w0 f with
        ⟨hfile, evs, hlog, hevs⟩ | ⟨pre, out, hfile, hlog⟩ |
        ⟨pre, e, post, hlog, hsw, ht, hpost⟩
      · rw [hfile] at hm
        rw [hlog]
        rcases ih m hm with h | h | h
        · exact Or.inl (RecordedAfterClone_extend _ _ _ _ h hevs)
        · exact Or.inr (Or.inl (RecordedAfterBuild_extend _ _ _ _ h hevs))
        · exact Or.inr (Or.inr (LeftByOther_extend _ _ _ _ h hevs))
      · rw [hfile] at hm
        cases hm
        left
        exact ⟨w0.log ++ pre, [], branch, authURL, directory, directory, out,
          by rw [hlog]; simp, rfl, by simp⟩
      · rw [hm] at ht
        right; right
        exact ⟨w0.log ++ pre, e, post, hlog, hsw, ht, hpost⟩
    | build directory ecr o =>
      rcases DockerBuild_effect directory ecr o w0 f with
        ⟨hfile, evs, hlog, hevs⟩ | ⟨pre, vt, lt, out, hfile, hlog⟩ |
        ⟨pre, e, post, hlog, hsw, ht, hpost⟩
      · rw [hfile] at hm
        rw [hlog]
        rcases ih m hm with h | h | h
        · exact Or.inl (RecordedAfterClone_extend _ _ _ _ h hevs)
        · exact Or.inr (Or.inl (RecordedAfterBuild_extend _ _ _ _ h hevs))
        · exact Or.inr (Or.inr (LeftByOther_extend _ _ _ _ h hevs))
      · rw [hfile] at hm
        cases hm
        right; left
        exact ⟨w0.log ++ pre, [], vt, lt, ".".toList, out,
          by rw [hlog]; simp, rfl, by simp⟩
      · rw [hm] at ht
        right; right
        exact ⟨w0.log ++ pre, e, post, hlog, hsw, ht, hpost⟩

/-- C6 as stated fails: after a first `checkOrClone` that clones at head `abc`, the
reachable world holds the marker `abc` although no `docker build` has run at all, so
`abc` was not recorded after a container build that succeeded.  Nor is a marker always
a recorded head: when that first write fails after truncating the file, the reachable
world holds an empty marker and no write has succeeded at all. -/
theorem marker_invariant_counterexample :
    (Reachable (checkOrClone "repo".toList "u".toList "main".toList
        ⟨true, none, some "abc\n".toList, WriteResult.ok, false, none⟩ initial).2 ∧
      (checkOrClone "repo".toList "u".toList "main".toList
        ⟨true, none, some "abc\n".toList, WriteResult.ok, false, none⟩ initial).2.files
          "repo/.last_commit".toList = some "abc".toList ∧
      (∀ vt lt ok, Event.dockerBuild vt lt ok ∉
        (checkOrClone "repo".toList "u".toList "main".toList
          ⟨true, none, some "abc\n".toList, WriteResult.ok, false, none⟩ initial).2.log) ∧
      ¬ RecordedAfterBuild (checkOrClone "repo".toList "u".toList "main".toList
          ⟨true, none, some "abc\n".toList, WriteResult.ok, false, none⟩ initial).2.log
        "repo/.last_commit".toList "abc".toList) ∧
    (Reachable (checkOrClone "repo".toList "u".toList "main".toList
        ⟨true, none, some "abc\n".toList, WriteResult.failed 0, false, none⟩ initial).2 ∧
      (checkOrClone "repo".toList "u".toList "main".toList
        ⟨true, none, some "abc\n".toList, WriteResult.failed 0, false, none⟩
          initial).2.files "repo/.last_commit".toList = some [] ∧
      ∀ p d, Event.writeFile p d WriteResult.ok ∉
        (checkOrClone "repo".toList "u".toList "main".toList
          ⟨true, none, some "abc\n".toList, WriteResult.failed 0, false, none⟩
            initial).2.log) := by
  have hlog : (checkOrClone "repo".toList "u".toList "main".toList
      ⟨true, none, some "abc\n".toList, WriteResult.ok, false, none⟩ initial).2.log =
      [Event.gitCheckout "repo/.last_commit".toList none,
       Event.gitClone "main".toList "u".toList "repo".toList true,
       Event.gitRevParseHead "repo".toList (some "abc\n".toList),
       Event.writeFile "repo/.last_commit".toList "abc".toList WriteResult.ok] := by
    decide
  have hlog2 : (checkOrClone "repo".toList "u".toList "main".toList
      ⟨true, none, some "abc\n".toList, WriteResult.failed 0, false, none⟩
        initial).2.log =
      [Event.gitCheckout "repo/.last_commit".toList none,
       Event.gitClone "main".toList "u".toList "repo".toList true,
       Event.gitRevParseHead "repo".toList (some "abc\n".toList),
       Event.writeFile "repo/.last_commit".toList "abc".toList (WriteResult.failed 0)] := by
    decide
  have hno : ∀ vt lt ok, Event.dockerBuild vt lt ok ∉
      (checkOrClone "repo".toList "u".toList "main".toList
        ⟨true, none, some "abc\n".toList, WriteResult.ok, false, none⟩ initial).2.log := by
    intro vt lt ok
    rw [hlog]
    simp
  refine ⟨⟨Reachable.step Reachable.init (Step.sync _ _ _ _ _), by decide, hno, ?_⟩,
    ⟨Reachable.step Reachable.init (Step.sync _ _ _ _ _), by decide, ?_⟩⟩
  · rintro ⟨pre, post, vt, lt, d, out, h, -, -⟩
    apply hno vt lt true
    rw [h]
    simp
  · intro p d
    rw [hlog2]
    simp

/-- C6, amended: in every world reachable from the one with no working copy by runs of
`checkOrClone` and `DockerBuild`, a marker file that exists holds what the last event
that touched it left.  That event is a successful write that recorded the local head
read right after a clone that succeeded or right after a container build that
succeeded, or it is no successful write of the program: a write that failed after
truncating the file, or git checking out a `.last_commit` the upstream tracks.  When no
event of this last kind has touched the file, the marker is the head recorded after
the clone or after a successful build. -/
theorem marker_invariant (w : World) (hw : Reachable w) (f m : GoString)
    (hm : w.files f = some m) :
    (RecordedAfterClone w.log f m ∨ RecordedAfterBuild w.log f m ∨
      LeftByOther w.log f m) ∧
    ((∀ e ∈ w.log, successfulWrite e = false → touches f e = none) →
      RecordedAfterClone w.log f m ∨ RecordedAfterBuild w.log f m) := by
  have h := marker_classified w hw f m hm
  refine ⟨h, ?_⟩
  intro hnone
  rcases h with h | h | ⟨pre, e, post, hlog, hsw, ht, -⟩
  · exact Or.inl h
  · exact Or.inr h
  · have he : e ∈ w.log := by rw [hlog]; simp
    rw [hnone e he hsw] at ht
    cases ht

/-- C6, amended, at the world reached by a first clone at head `abc` followed by a
successful build at head `def`: the marker `def` was recorded after a clone or after a
build. -/
theorem marker_invariant_witness :
    RecordedAfterClone
      (DockerBuild "repo".toList "reg/repo".toList
        ⟨true, true, none, ⟨2024, 1, 1, 0, 0, 0, 0⟩, true, some "def\n".toList,
          WriteResult.ok⟩
        (checkOrClone "repo".toList "u".toList "main".toList
          ⟨true, none, some "abc\n".toList, WriteResult.ok, false, none⟩
            initial).2).2.log "repo/.last_commit".toList "def".toList ∨
    RecordedAfterBuild
      (DockerBuild "repo".toList "reg/repo".toList
        ⟨true, true, none, ⟨2024, 1, 1, 0, 0, 0, 0⟩, true, some "def\n".toList,
          WriteResult.ok⟩
        (checkOrClone "repo".toList "u".toList "main".toList
          ⟨true, none, some "abc\n".toList, WriteResult.ok, false, none⟩
            initial).2).2.log "repo/.last_commit".toList "def".toList ∨
    LeftByOther
      (DockerBuild "repo".toList "reg/repo".toList
        ⟨true, true, none, ⟨2024, 1, 1, 0, 0, 0, 0⟩, true, some "def\n".toList,
          WriteResult.ok⟩
        (checkOrClone "repo".toList "u".toList "main".toList
          ⟨true, none, some "abc\n".toList, WriteResult.ok, false, none⟩
            initial).2).2.log "repo/.last_commit".toList "def".toList :=
  (marker_invariant _
    (Reachable.step (Reachable.step Reachable.init (Step.sync _ _ _ _ _))
      (Step.build _ _ _ _))
    "repo/.last_commit".toList "def".toList (by decide)).1

/-! ## Properties of `main` -/

theorem checkOrClone_error_false (directory authURL branch : GoString) (o : SyncOracle)
    (w : World) (h : (checkOrClone directory authURL branch o w).1.2 ≠ none) :
    (checkOrClone directory authURL branch o w).1.1 = false := by
  obtain ⟨clone, cloneMarker, head, write, fetch, lsRemote⟩ := o
  revert h
  cases hd : w.dirs (joinPath w.cwd directory)
  · cases clone
    · simp [checkOrClone, World.path, hd]
    cases head with
    | none => simp [checkOrClone, GetHeadHash, World.path, hd]
    | some out =>
      cases write <;> simp [checkOrClone, GetHeadHash, World.WriteFile, World.path, hd]
  · cases fetch
    · simp [checkOrClone, World.path, hd]
    · cases lsRemote with
      | none => simp [checkOrClone, GetRemoteHash, World.path, hd]
      | some out =>
        cases hF : Fields out with
        | nil => simp [checkOrClone, GetRemoteHash, World.path, hd, hF]
        | cons r rest =>
          cases hm : w.files (joinPath w.cwd (directory ++ "/.last_commit".toList)) with
          | none =>
            simp only [String.toList] at hm
            by_cases hr : r = []
            · simp [checkOrClone, GetRemoteHash, readStoredHash, World.path, hd, hF, hm, hr]
            · simp [checkOrClone, GetRemoteHash, readStoredHash, World.path, hd, hF, hm, hr]
          | some data =>
            simp only [String.toList] at hm
            by_cases hr : r = TrimSpace data
            · simp [checkOrClone, GetRemoteHash, readStoredHash, World.path, hd, hF, hm, hr]
            · simp [checkOrClone, GetRemoteHash, readStoredHash, World.path, hd, hF, hm, hr]

/-- Whenever `checkOrClone` returns an error, `main` prints `No build required` and
returns normally: the error built with `fmt.Errorf` on line 46 is dropped. -/
theorem main_sync_error_is_dropped (e : Environ) (o : MainOracle) (w : World)
    (ci_dir : GoString) (hv : envValid e = true)
    (hd : getDirectory e.project = some (ci_dir, none))
    (herr : (checkOrClone ci_dir
      ("https://".toList ++ e.token ++ "@github.com/".toList ++ e.project)
      (if e.branch = [] then "main".toList else e.branch) o.sync
      ((w.Mkdir "repos".toList o.mkdir).2.Chdir "repos".toList o.chdir).2).1.2 ≠ none) :
    main e o w = (Exit.ok, (checkOrClone ci_dir
      ("https://".toList ++ e.token ++ "@github.com/".toList ++ e.project)
      (if e.branch = [] then "main".toList else e.branch) o.sync
      ((w.Mkdir "repos".toList o.mkdir).2.Chdir "repos".toList o.chdir).2).2.emit
        (Event.print "No build required".toList)) := by
  have hb := checkOrClone_error_false _ _ _ _ _ herr
  unfold main
  simp only [hv, hd, Bool.not_true, Bool.false_eq_true, if_false]
  revert hb
  cases checkOrClone ci_dir
    ("https://".toList ++ e.token ++ "@github.com/".toList ++ e.project)
    (if e.branch = [] then "main".toList else e.branch) o.sync
    ((w.Mkdir "repos".toList o.mkdir).2.Chdir "repos".toList o.chdir).2 with
  | mk res w1 =>
    obtain ⟨b, err⟩ := res
    intro hb
    simp only at hb
    subst hb
    simp

/-- C4, at a failing input: on an existing working copy whose fetch fails,
`checkOrClone` returns an error, and `main` still ends with exit status 0 after
printing `No build required`. -/
theorem main_sync_failure_reports_no_build :
    (checkOrClone "repo".toList "https://t@github.com/owner/repo".toList "main".toList
        ⟨false, none, none, WriteResult.ok, false, none⟩
        { existingCopy "abc".toList with cwd := "repos".toList }).1 =
      (false, some Error.gitFetch) ∧
    (main ⟨"owner/repo".toList, [], "t".toList, "reg/repo".toList, "eu".toList⟩
        ⟨true, true, ⟨false, none, none, WriteResult.ok, false, none⟩,
         ⟨true, true, none, ⟨2024, 1, 1, 0, 0, 0, 0⟩, true, some "abc".toList,
           WriteResult.ok⟩,
         ⟨true, true, true, true⟩⟩
        (existingCopy "abc".toList)).1 = Exit.ok ∧
    (main ⟨"owner/repo".toList, [], "t".toList, "reg/repo".toList, "eu".toList⟩
        ⟨true, true, ⟨false, none, none, WriteResult.ok, false, none⟩,
         ⟨true, true, none, ⟨2024, 1, 1, 0, 0, 0, 0⟩, true, some "abc".toList,
           WriteResult.ok⟩,
         ⟨true, true, true, true⟩⟩
        (existingCopy "abc".toList)).2.log =
      [Event.mkdir "repos".toList false,
       Event.chdir "repos".toList true,
       Event.gitFetch "repo".toList "main".toList false,
       Event.print "No build required".toList] := by
  decide

/-- C5, at a failing input: a build is required and `DockerBuild` fails in `git pull`;
`main` goes on to `PushToEcr` with the empty version tag, runs `docker push` on it and
ends with exit status 0. -/
theorem main_build_failure_still_pushes :
    (main ⟨"owner/repo".toList, [], "t".toList, "reg/repo".toList, "eu".toList⟩
        ⟨true, true, ⟨false, none, none, WriteResult.ok, true,
           some "def\trefs/heads/main\n".toList⟩,
         ⟨true, false, none, ⟨2024, 1, 1, 0, 0, 0, 0⟩, true, some "def".toList,
           WriteResult.ok⟩,
         ⟨true, true, true, true⟩⟩
        (existingCopy "abc".toList)).1 = Exit.ok ∧
    (main ⟨"owner/repo".toList, [], "t".toList, "reg/repo".toList, "eu".toList⟩
        ⟨true, true, ⟨false, none, none, WriteResult.ok, true,
           some "def\trefs/heads/main\n".toList⟩,
         ⟨true, false, none, ⟨2024, 1, 1, 0, 0, 0, 0⟩, true, some "def".toList,
           WriteResult.ok⟩,
         ⟨true, true, true, true⟩⟩
        (existingCopy "abc".toList)).2.log =
      [Event.mkdir "repos".toList false,
       Event.chdir "repos".toList true,
       Event.gitFetch "repo".toList "main".toList true,
       Event.gitLsRemote "https://t@github.com/owner/repo".toList "main".toList
         (some "def\trefs/heads/main\n".toList),
       Event.readFile "repos/repo/.last_commit".toList (some "abc".toList),
       Event.print "Initiating new image build: ".toList,
       Event.chdir "repo".toList true,
       Event.gitPull false,
       Event.printErr "CI process failed: ".toList Error.gitPull,
       Event.dockerLogin "reg/repo".toList true,
       Event.awsGetLoginPassword "eu".toList true,
       Event.dockerLoginWait true,
       Event.dockerPush [] true,
       Event.print "Successfully pushed to ECR\n".toList] := by
  decide

end EcsCicd
